import Mathlib

/-!
# Verification of the AskAI agentic-support RAG pipeline

Shallow embedding of `src/rag_agent.py` (the retrieval-augmented-generation
core of the repository): document loading, text chunking, index building,
retrieval, and the escalation decision path of `answer_question`.

Strings are modelled as their character lists (`List Char`); the Python
string helpers used by the source (`str.splitlines`, `str.strip`,
`str.split`, `str.startswith`, `" ".join`) are embedded as executable
functions over `List Char`.  Whitespace is modelled by `Char.isWhitespace`
(space, tab, CR, LF) for both stripping and word splitting, matching the
characters that actually occur in the corpus; Python additionally treats
`\v`, `\f` and some unicode spaces as whitespace, uniformly in both
`strip` and `split`, so the lemmas relating the two are insensitive to
this choice.  `str.splitlines` is modelled for `\n` separators (the
corpus' line ending).
-/

namespace RagAgent

/-- Whitespace test used uniformly for `strip` and `split`. -/
def isWS (c : Char) : Bool := c.isWhitespace

/-- Python `s.strip()` on a character list: drop leading and trailing
whitespace. -/
def pyStrip (l : List Char) : List Char :=
  ((l.dropWhile isWS).reverse.dropWhile isWS).reverse

/-- Python `s.strip()` on a `String`. -/
def pyStripS (s : String) : String := String.mk (pyStrip s.data)

/-- Python `s.splitlines()` restricted to `\n` separators: splits on every
newline and drops a final empty line produced by a trailing newline
(`"a\n".splitlines() == ["a"]`, `"".splitlines() == []`). -/
def pySplitlines : List Char → List (List Char)
  | [] => []
  | c :: cs =>
    if c = '\n' then [] :: pySplitlines cs
    else
      match pySplitlines cs with
      | [] => [[c]]
      | l :: ls => (c :: l) :: ls

/-- Split on every single whitespace character (keeping empty pieces);
`pyWords` filters the empties away, yielding Python `s.split()`. -/
def splitWS : List Char → List (List Char)
  | [] => [[]]
  | c :: cs =>
    if isWS c then [] :: splitWS cs
    else
      match splitWS cs with
      | [] => [[c]]
      | w :: ws => (c :: w) :: ws

/-- Python `s.split()`: whitespace-delimited words, no empty words. -/
def pyWords (l : List Char) : List (List Char) :=
  (splitWS l).filter (fun w => !w.isEmpty)

/-- Embeds `line.strip().startswith("#")` from `chunk_text` (rag_agent.py:106). -/
def isHeading (l : List Char) : Bool :=
  match pyStrip l with
  | '#' :: _ => true
  | _ => false

/-- Embeds `" ".join(x.strip() for x in current if x.strip())`
(rag_agent.py:109/117). -/
def joinStrip (cur : List (List Char)) : List Char :=
  List.intercalate [' ']
    (cur.filterMap fun x =>
      let s := pyStrip x
      if s.isEmpty then none else some s)

/-- The flush step of `chunk_text`'s section loop (rag_agent.py:108-111 and
116-119): if `current` is non-empty, join it and append the joined text to
`sections` when it is itself non-empty. -/
def sectionsFlush (secs cur : List (List Char)) : List (List Char) :=
  if cur.isEmpty then secs
  else
    let j := joinStrip cur
    if j.isEmpty then secs else secs ++ [j]

/-- Embeds `if line.strip(): current.append(line)` (rag_agent.py:113-114). -/
def appendLine (cur : List (List Char)) (line : List Char) : List (List Char) :=
  if (pyStrip line).isEmpty then cur else cur ++ [line]

/-- The `for line in lines` loop of `chunk_text` (rag_agent.py:105-119),
followed by the final flush: state is `(sections, current)`. -/
def sectionsLoop : List (List Char) → List (List Char) → List (List Char) →
    List (List Char)
  | secs, cur, [] => sectionsFlush secs cur
  | secs, cur, line :: rest =>
    if isHeading line then
      if cur.isEmpty then sectionsLoop secs (appendLine cur line) rest
      else sectionsLoop (sectionsFlush secs cur) (appendLine [] line) rest
    else sectionsLoop secs (appendLine cur line) rest

/-- The section pass of `chunk_text` over the splitlines of the text. -/
def sectionsOf (lines : List (List Char)) : List (List Char) :=
  sectionsLoop [] [] lines

/-- The sliding-window `while start < len(words)` loop of `chunk_text`
(rag_agent.py:129-135), fuel-indexed: `none` models non-termination (the
loop makes no progress when `overlap ≥ chunk_size` and words remain; with
`chunk_size > overlap` the start index advances by at least one per
iteration, so `words.length + 1` units of fuel always suffice).  `start`
is a `Nat` with truncated subtraction; the Python `start` can only go
negative when `overlap > chunk_size`, a state shown below to be
unreachable (the loop only ever runs with an empty word list). -/
def slidingLoop (words : List (List Char)) (cs ov : Nat) :
    Nat → Nat → List (List Char) → Option (List (List Char))
  | 0, _, _ => none
  | fuel + 1, start, chunks =>
    if start < words.length then
      let chunkWords := (words.drop start).take cs
      if chunkWords.isEmpty then some chunks
      else slidingLoop words cs ov fuel (start + cs - ov)
        (chunks ++ [List.intercalate [' '] chunkWords])
    else some chunks

/-- Embeds `chunk_text(text, chunk_size, overlap)` (rag_agent.py:91-136) on a
character list: the section pass runs over every line (headings or not);
only if it produced nothing does the sliding-window fallback run. -/
def chunkCore (text : List Char) (cs ov : Nat) : Option (List (List Char)) :=
  let sections := sectionsOf (pySplitlines text)
  if sections.isEmpty then
    let words := pyWords text
    slidingLoop words cs ov (words.length + 1) 0 []
  else some sections

/-- Embeds `chunk_text` on `String`s; `some` is normal return, `none` would be
non-termination of the fallback loop. -/
def chunkText (text : String) (cs ov : Nat) : Option (List String) :=
  (chunkCore text.data cs ov).map (List.map String.mk)

/-- Embeds `chunk_text` with its default arguments `chunk_size=800, overlap=150`. -/
def chunkTextDefault (text : String) : Option (List String) :=
  chunkText text 800 150

/-- Possible outcomes of a call to `chunk_text`, separating normal return,
a raised exception, and divergence.  The body of `chunk_text` contains no
`raise`, so the `error` outcome is never produced by the embedding; it is
the shape the spec's `ConfigurationError` would have to take. -/
inductive ChunkOutcome where
  | ok (chunks : List String)
  | error (e : String)
  | diverges
deriving DecidableEq, Repr

/-- The outcome of `chunk_text(text, cs, ov)`. -/
def chunkTextOutcome (text : String) (cs ov : Nat) : ChunkOutcome :=
  match chunkText text cs ov with
  | some r => .ok r
  | none => .diverges

/-! ## Whitespace, strip, splitlines and split lemmas -/

theorem pyStrip_eq_nil_iff {l : List Char} :
    pyStrip l = [] ↔ ∀ c ∈ l, isWS c := by
  constructor
  · intro h c hc
    unfold pyStrip at h
    rw [List.reverse_eq_nil_iff, List.dropWhile_eq_nil_iff] at h
    rcases (List.takeWhile_append_dropWhile (p := isWS) (l := l)) ▸ hc |>
        List.mem_append.mp with h1 | h1
    · exact List.mem_takeWhile_imp h1
    · exact h c (List.mem_reverse.mpr h1)
  · intro h
    unfold pyStrip
    have h1 : l.dropWhile isWS = [] := List.dropWhile_eq_nil_iff.mpr h
    rw [h1]
    rfl

theorem mem_dropWhile_append_singleton {p : Char → Bool} {d : Char}
    (hd : p d = false) : ∀ rest : List Char, d ∈ List.dropWhile p (rest ++ [d])
  | [] => by simp [List.dropWhile, hd]
  | r :: rest => by
    by_cases hr : p r
    · simpa [List.dropWhile, hr] using mem_dropWhile_append_singleton hd rest
    · simp [List.dropWhile, hr]

theorem head_dropWhile_false {p : Char → Bool} :
    ∀ {l d t}, List.dropWhile p l = d :: t → p d = false
  | [], _, _, h => by simp at h
  | c :: cs, d, t, h => by
    by_cases hc : p c
    · rw [List.dropWhile_cons, if_pos hc] at h
      exact head_dropWhile_false h
    · rw [List.dropWhile_cons, if_neg hc] at h
      cases h
      exact Bool.of_not_eq_true hc

theorem exists_not_ws_of_pyStrip_ne_nil {l : List Char}
    (h : pyStrip l ≠ []) : ∃ c ∈ pyStrip l, ¬ isWS c := by
  cases h1 : l.dropWhile isWS with
  | nil =>
    exact absurd (by unfold pyStrip; rw [h1]; rfl) h
  | cons d t =>
    have hd : isWS d = false := head_dropWhile_false h1
    refine ⟨d, ?_, by simp [hd]⟩
    unfold pyStrip
    rw [h1, List.mem_reverse]
    have h2 : (d :: t).reverse = t.reverse ++ [d] := by simp
    rw [h2]
    exact mem_dropWhile_append_singleton hd t.reverse

theorem pyStrip_ne_nil_of_mem {l : List Char} {c : Char}
    (hc : c ∈ l) (hw : ¬ isWS c) : pyStrip l ≠ [] := by
  intro h
  exact hw (pyStrip_eq_nil_iff.mp h c hc)

theorem pySplitlines_eq_nil_iff {t : List Char} :
    pySplitlines t = [] ↔ t = [] := by
  constructor
  · intro h
    cases t with
    | nil => rfl
    | cons c cs =>
      by_cases hc : c = '\n'
      · simp [pySplitlines, hc] at h
      · simp only [pySplitlines, if_neg hc] at h
        cases hl : pySplitlines cs <;> simp [hl] at h
  · intro h; rw [h]; rfl

theorem mem_of_mem_pySplitlines {t : List Char} :
    ∀ {l c}, l ∈ pySplitlines t → c ∈ l → c ∈ t := by
  induction t with
  | nil => intro l c hl; simp [pySplitlines] at hl
  | cons d cs ih =>
    intro l c hl hc
    by_cases hd : d = '\n'
    · simp only [pySplitlines, if_pos hd, List.mem_cons] at hl
      rcases hl with rfl | hl
      · simp at hc
      · exact List.mem_cons_of_mem _ (ih hl hc)
    · simp only [pySplitlines, if_neg hd] at hl
      cases hcs : pySplitlines cs with
      | nil =>
        rw [hcs] at hl
        simp at hl
        subst hl
        rw [List.mem_cons]
        left
        simpa using hc
      | cons l0 ls =>
        rw [hcs, List.mem_cons] at hl
        rcases hl with rfl | hl
        · rw [List.mem_cons] at hc
          rcases hc with rfl | hc
          · exact List.mem_cons_self _ _
          · exact List.mem_cons_of_mem _ (ih (hcs ▸ List.mem_cons_self l0 ls) hc)
        · exact List.mem_cons_of_mem _ (ih (hcs ▸ List.mem_cons_of_mem l0 hl) hc)

theorem exists_line_of_mem {t : List Char} :
    ∀ {c}, c ∈ t → c ≠ '\n' → ∃ l ∈ pySplitlines t, c ∈ l := by
  induction t with
  | nil => intro c hc; simp at hc
  | cons d cs ih =>
    intro c hc hn
    rw [List.mem_cons] at hc
    by_cases hd : d = '\n'
    · rcases hc with rfl | hc
      · exact absurd hd hn
      · rcases ih hc hn with ⟨l, hl, hcl⟩
        exact ⟨l, by simp [pySplitlines, hd, hl], hcl⟩
    · cases hcs : pySplitlines cs with
      | nil =>
        have hnil : cs = [] := pySplitlines_eq_nil_iff.mp hcs
        subst hnil
        rcases hc with rfl | hc
        · exact ⟨[c], by simp [pySplitlines, hd], by simp⟩
        · simp at hc
      | cons l0 ls =>
        rcases hc with rfl | hc
        · exact ⟨c :: l0, by simp [pySplitlines, hd, hcs], by simp⟩
        · rcases ih hc hn with ⟨l, hl, hcl⟩
          rw [hcs, List.mem_cons] at hl
          rcases hl with rfl | hl
          · exact ⟨d :: l, by simp [pySplitlines, hd, hcs],
              List.mem_cons_of_mem d hcl⟩
          · exact ⟨l, by simp [pySplitlines, hd, hcs, hl], hcl⟩

theorem splitWS_all_nil {t : List Char} (h : ∀ c ∈ t, isWS c) :
    ∀ w ∈ splitWS t, w = [] := by
  induction t with
  | nil => intro w hw; simpa [splitWS] using hw
  | cons c cs ih =>
    intro w hw
    have hc : isWS c := h c (List.mem_cons_self _ _)
    simp only [splitWS, if_pos hc, List.mem_cons] at hw
    rcases hw with rfl | hw
    · rfl
    · exact ih (fun x hx => h x (List.mem_cons_of_mem _ hx)) w hw

theorem pyWords_eq_nil_of_all_ws {t : List Char} (h : ∀ c ∈ t, isWS c) :
    pyWords t = [] := by
  unfold pyWords
  rw [List.filter_eq_nil_iff]
  intro w hw
  simp [splitWS_all_nil h w hw]

/-! ## Section-machine lemmas -/

/-- Number of heading lines. -/
def countHeadings (lines : List (List Char)) : Nat :=
  lines.countP (fun l => isHeading l)

/-- How many sections the loop will still flush, given the pending
`current` accumulator and the remaining lines: this mirrors the branch
structure of `sectionsLoop` exactly, counting one per flush. -/
def flushCount : List (List Char) → List (List Char) → Nat
  | cur, [] => if cur.isEmpty then 0 else 1
  | cur, line :: rest =>
    if isHeading line then
      if cur.isEmpty then flushCount (appendLine cur line) rest
      else 1 + flushCount (appendLine [] line) rest
    else flushCount (appendLine cur line) rest

/-- Whether some non-blank line occurs strictly before the first heading. -/
def leadingNonBlank : List (List Char) → Bool
  | [] => false
  | line :: rest =>
    if isHeading line then false
    else if (pyStrip line).isEmpty then leadingNonBlank rest
    else true

theorem isHeading_pyStrip_ne_nil {l : List Char} (h : isHeading l = true) :
    pyStrip l ≠ [] := by
  unfold isHeading at h
  intro hnil
  rw [hnil] at h
  simp at h

theorem appendLine_inv {cur : List (List Char)} {line : List Char}
    (h : ∀ l ∈ cur, pyStrip l ≠ []) :
    ∀ l ∈ appendLine cur line, pyStrip l ≠ [] := by
  intro l hl
  unfold appendLine at hl
  by_cases hb : (pyStrip line).isEmpty
  · rw [if_pos hb] at hl
    exact h l hl
  · rw [if_neg hb] at hl
    rcases List.mem_append.mp hl with hl | hl
    · exact h l hl
    · rw [List.mem_singleton] at hl
      subst hl
      simpa [List.isEmpty_iff] using hb

theorem appendLine_nonblank {cur : List (List Char)} {line : List Char}
    (h : pyStrip line ≠ []) : appendLine cur line = cur ++ [line] := by
  unfold appendLine
  rw [if_neg (by simpa [List.isEmpty_iff] using h)]

theorem appendLine_blank {cur : List (List Char)} {line : List Char}
    (h : pyStrip line = []) : appendLine cur line = cur := by
  unfold appendLine
  rw [if_pos (by simpa [List.isEmpty_iff] using h)]

theorem intercalate_cons_ne_nil {sep a : List Char} {l : List (List Char)}
    (ha : a ≠ []) : List.intercalate sep (a :: l) ≠ [] := by
  cases l with
  | nil => simpa [List.intercalate, List.intersperse] using ha
  | cons b bs =>
    simp only [List.intercalate, List.intersperse, List.flatten]
    intro hcontra
    rcases List.append_eq_nil.mp hcontra with ⟨h1, _⟩
    exact ha h1

theorem joinStrip_ne_nil {cur : List (List Char)} (hne : cur ≠ [])
    (h : ∀ l ∈ cur, pyStrip l ≠ []) : joinStrip cur ≠ [] := by
  cases cur with
  | nil => exact absurd rfl hne
  | cons x rest =>
    have hx : pyStrip x ≠ [] := h x (List.mem_cons_self _ _)
    have hfm : (if (pyStrip x).isEmpty = true then none else some (pyStrip x)) =
        some (pyStrip x) := if_neg (by simpa [List.isEmpty_iff] using hx)
    unfold joinStrip
    rw [List.filterMap_cons]
    simp only [hfm]
    exact intercalate_cons_ne_nil hx

theorem sectionsFlush_of_ne_nil {secs cur : List (List Char)} (hne : cur ≠ [])
    (h : ∀ l ∈ cur, pyStrip l ≠ []) :
    sectionsFlush secs cur = secs ++ [joinStrip cur] := by
  unfold sectionsFlush
  rw [if_neg (by simpa [List.isEmpty_iff] using hne)]
  exact if_neg (by simpa [List.isEmpty_iff] using joinStrip_ne_nil hne h)

theorem sectionsFlush_nil (secs : List (List Char)) :
    sectionsFlush secs [] = secs := by
  simp [sectionsFlush]

/-- The length of the loop's output is the number of sections already
emitted plus the number of flushes still to come (soundness of
`flushCount`), under the invariant that every accumulated line is
non-blank. -/
theorem sectionsLoop_length :
    ∀ (lines secs cur : List (List Char)), (∀ l ∈ cur, pyStrip l ≠ []) →
      (sectionsLoop secs cur lines).length = secs.length + flushCount cur lines
  | [], secs, cur, hinv => by
    by_cases hc : cur = []
    · subst hc
      simp [sectionsLoop, sectionsFlush_nil, flushCount]
    · rw [sectionsLoop, flushCount, sectionsFlush_of_ne_nil hc hinv,
        if_neg (by simpa [List.isEmpty_iff] using hc)]
      simp
  | line :: rest, secs, cur, hinv => by
    rw [sectionsLoop, flushCount]
    by_cases hh : isHeading line
    · rw [if_pos hh, if_pos hh]
      by_cases hc : cur = []
      · rw [if_pos (by simpa [List.isEmpty_iff] using hc),
          if_pos (by simpa [List.isEmpty_iff] using hc)]
        exact sectionsLoop_length rest secs _ (appendLine_inv hinv)
      · rw [if_neg (by simpa [List.isEmpty_iff] using hc),
          if_neg (by simpa [List.isEmpty_iff] using hc),
          sectionsLoop_length rest _ _ (appendLine_inv (by intro l hl; simp at hl)),
          sectionsFlush_of_ne_nil hc hinv]
        simp
        omega
    · rw [if_neg hh, if_neg hh]
      exact sectionsLoop_length rest secs _ (appendLine_inv hinv)

/-- Once the accumulator is non-empty it never empties again, and every
heading plus the final flush each contribute exactly one section. -/
theorem flushCount_of_ne_nil :
    ∀ (lines cur : List (List Char)), cur ≠ [] →
      flushCount cur lines = countHeadings lines + 1
  | [], cur, hne => by
    rw [flushCount, if_neg (by simpa [List.isEmpty_iff] using hne)]
    simp [countHeadings]
  | line :: rest, cur, hne => by
    rw [flushCount]
    by_cases hh : isHeading line
    · rw [if_pos hh, if_neg (by simpa [List.isEmpty_iff] using hne)]
      have hline : pyStrip line ≠ [] := isHeading_pyStrip_ne_nil hh
      rw [appendLine_nonblank hline]
      rw [flushCount_of_ne_nil rest ([] ++ [line]) (by simp)]
      simp [countHeadings, hh, List.countP_cons]
      omega
    · rw [if_neg hh]
      have hcur : appendLine cur line ≠ [] := by
        unfold appendLine
        by_cases hb : (pyStrip line).isEmpty
        · rwa [if_pos hb]
        · rw [if_neg hb]; simp
      rw [flushCount_of_ne_nil rest _ hcur]
      simp [countHeadings, List.countP_cons, hh]

/-- With at least one heading among the remaining lines, the number of
flushes is the number of headings, plus one more when either the
accumulator is already non-empty or a non-blank line precedes the first
heading. -/
theorem flushCount_of_hasHeading :
    ∀ (lines : List (List Char)), (∃ l ∈ lines, isHeading l = true) →
      ∀ cur, flushCount cur lines =
        countHeadings lines +
          (if cur.isEmpty ∧ leadingNonBlank lines = false then 0 else 1)
  | [], h, cur => by simp at h
  | line :: rest, h, cur => by
    rw [flushCount]
    by_cases hh : isHeading line
    · rw [if_pos hh]
      have hline : pyStrip line ≠ [] := isHeading_pyStrip_ne_nil hh
      have hcount : countHeadings (line :: rest) = countHeadings rest + 1 := by
        simp [countHeadings, List.countP_cons, hh]
      have hlnb : leadingNonBlank (line :: rest) = false := by
        simp [leadingNonBlank, hh]
      by_cases hc : cur = []
      · subst hc
        rw [if_pos (by simp), appendLine_nonblank hline]
        rw [flushCount_of_ne_nil rest ([] ++ [line]) (by simp)]
        rw [hcount, hlnb]
        simp
      · rw [if_neg (by simpa [List.isEmpty_iff] using hc),
          appendLine_nonblank hline]
        rw [flushCount_of_ne_nil rest ([] ++ [line]) (by simp)]
        rw [hcount, hlnb]
        rw [if_neg (by simp [List.isEmpty_iff, hc])]
        omega
    · rw [if_neg hh]
      have hrest : ∃ l ∈ rest, isHeading l = true := by
        rcases h with ⟨l, hl, hl2⟩
        rw [List.mem_cons] at hl
        rcases hl with rfl | hl
        · exact absurd hl2 (by simp [hh])
        · exact ⟨l, hl, hl2⟩
      have hcount : countHeadings (line :: rest) = countHeadings rest := by
        simp [countHeadings, List.countP_cons, hh]
      rw [hcount]
      by_cases hb : pyStrip line = []
      · rw [appendLine_blank hb]
        rw [flushCount_of_hasHeading rest hrest cur]
        have hlnb : leadingNonBlank (line :: rest) = leadingNonBlank rest := by
          simp [leadingNonBlank, hh, List.isEmpty_iff, hb]
        rw [hlnb]
      · rw [appendLine_nonblank hb]
        rw [flushCount_of_hasHeading rest hrest (cur ++ [line])]
        have hlnb : leadingNonBlank (line :: rest) = true := by
          simp [leadingNonBlank, hh, List.isEmpty_iff, hb]
        rw [hlnb]
        rw [if_neg (by simp [List.isEmpty_iff]), if_neg (by simp)]

/-- At least one flush happens when the accumulator is non-empty or some
remaining line is non-blank. -/
theorem flushCount_pos :
    ∀ (lines cur : List (List Char)),
      (cur ≠ [] ∨ ∃ l ∈ lines, pyStrip l ≠ []) → 1 ≤ flushCount cur lines
  | [], cur, h => by
    rcases h with h | h
    · rw [flushCount, if_neg (by simpa [List.isEmpty_iff] using h)]
    · simp at h
  | line :: rest, cur, h => by
    rw [flushCount]
    by_cases hh : isHeading line
    · rw [if_pos hh]
      by_cases hc : cur = []
      · rw [if_pos (by simpa [List.isEmpty_iff] using hc)]
        refine flushCount_pos rest _ (Or.inl ?_)
        rw [appendLine_nonblank (isHeading_pyStrip_ne_nil hh)]
        simp
      · rw [if_neg (by simpa [List.isEmpty_iff] using hc)]
        omega
    · rw [if_neg hh]
      by_cases hb : pyStrip line = []
      · rw [appendLine_blank hb]
        refine flushCount_pos rest cur ?_
        rcases h with h | ⟨l, hl, hl2⟩
        · exact Or.inl h
        · rw [List.mem_cons] at hl
          rcases hl with rfl | hl
          · exact absurd hb hl2
          · exact Or.inr ⟨l, hl, hl2⟩
      · rw [appendLine_nonblank hb]
        exact flushCount_pos rest _ (Or.inl (by simp))

/-- No flush happens over all-blank lines with an empty accumulator. -/
theorem flushCount_nil_blank :
    ∀ (lines : List (List Char)), (∀ l ∈ lines, pyStrip l = []) →
      flushCount [] lines = 0
  | [], _ => by simp [flushCount]
  | line :: rest, h => by
    have hb : pyStrip line = [] := h line (List.mem_cons_self _ _)
    have hh : isHeading line = false := by
      by_contra hcon
      exact isHeading_pyStrip_ne_nil (by simpa using hcon) hb
    rw [flushCount, if_neg (by simp [hh]), appendLine_blank hb]
    exact flushCount_nil_blank rest (fun l hl => h l (List.mem_cons_of_mem _ hl))

/-- Every emitted section is non-empty. -/
theorem sectionsLoop_mem_ne_nil :
    ∀ (lines secs cur : List (List Char)), (∀ l ∈ cur, pyStrip l ≠ []) →
      (∀ s ∈ secs, s ≠ []) → ∀ s ∈ sectionsLoop secs cur lines, s ≠ []
  | [], secs, cur, hinv, hsecs => by
    by_cases hc : cur = []
    · subst hc
      rw [sectionsLoop, sectionsFlush_nil]
      exact hsecs
    · rw [sectionsLoop, sectionsFlush_of_ne_nil hc hinv]
      intro s hs
      rcases List.mem_append.mp hs with hs | hs
      · exact hsecs s hs
      · rw [List.mem_singleton] at hs
        subst hs
        exact joinStrip_ne_nil hc hinv
  | line :: rest, secs, cur, hinv, hsecs => by
    rw [sectionsLoop]
    by_cases hh : isHeading line
    · rw [if_pos hh]
      by_cases hc : cur = []
      · rw [if_pos (by simpa [List.isEmpty_iff] using hc)]
        exact sectionsLoop_mem_ne_nil rest secs _ (appendLine_inv hinv) hsecs
      · rw [if_neg (by simpa [List.isEmpty_iff] using hc),
          sectionsFlush_of_ne_nil hc hinv]
        refine sectionsLoop_mem_ne_nil rest _ _
          (appendLine_inv (by intro l hl; simp at hl)) ?_
        intro s hs
        rcases List.mem_append.mp hs with hs | hs
        · exact hsecs s hs
        · rw [List.mem_singleton] at hs
          subst hs
          exact joinStrip_ne_nil hc hinv
    · rw [if_neg hh]
      exact sectionsLoop_mem_ne_nil rest secs _ (appendLine_inv hinv) hsecs

/-! ## Characterization of `chunk_text` -/

theorem sectionsOf_length (lines : List (List Char)) :
    (sectionsOf lines).length = flushCount [] lines := by
  unfold sectionsOf
  simpa using sectionsLoop_length lines [] [] (by simp)

theorem all_blank_of_sectionsOf_nil {lines : List (List Char)}
    (h : sectionsOf lines = []) : ∀ l ∈ lines, pyStrip l = [] := by
  intro l hl
  by_contra hnb
  have hpos := flushCount_pos lines [] (Or.inr ⟨l, hl, hnb⟩)
  rw [← sectionsOf_length, h] at hpos
  simp at hpos

theorem all_ws_of_sectionsOf_nil {t : List Char}
    (h : sectionsOf (pySplitlines t) = []) : ∀ c ∈ t, isWS c := by
  intro c hc
  by_cases hn : c = '\n'
  · subst hn; decide
  · rcases exists_line_of_mem hc hn with ⟨l, hl, hcl⟩
    exact pyStrip_eq_nil_iff.mp (all_blank_of_sectionsOf_nil h l hl) c hcl

theorem words_nil_of_sectionsOf_nil {t : List Char}
    (h : sectionsOf (pySplitlines t) = []) : pyWords t = [] :=
  pyWords_eq_nil_of_all_ws (all_ws_of_sectionsOf_nil h)

theorem sectionsOf_nil_of_all_ws {t : List Char} (h : ∀ c ∈ t, isWS c) :
    sectionsOf (pySplitlines t) = [] := by
  rw [← List.length_eq_zero, sectionsOf_length]
  refine flushCount_nil_blank _ ?_
  intro l hl
  exact pyStrip_eq_nil_iff.mpr
    (fun c hc => h c (mem_of_mem_pySplitlines hl hc))

theorem sectionsOf_ne_nil_of_nonblank {t : List Char} {c : Char}
    (hc : c ∈ t) (hw : ¬ isWS c) : sectionsOf (pySplitlines t) ≠ [] := by
  have hn : c ≠ '\n' := by rintro rfl; exact hw (by decide)
  rcases exists_line_of_mem hc hn with ⟨l, hl, hcl⟩
  intro hnil
  exact pyStrip_ne_nil_of_mem hcl hw (all_blank_of_sectionsOf_nil hnil l hl)

theorem sectionsOf_all_ne_nil (lines : List (List Char)) :
    ∀ s ∈ sectionsOf lines, s ≠ [] :=
  sectionsLoop_mem_ne_nil lines [] [] (by simp) (by simp)

/-- Embeds `chunk_text` always takes the section path: the sliding-window
fallback only runs when the section pass produced nothing, which happens
exactly for whitespace-only text, in which case the word list is empty and
the loop exits immediately with `[]` — equal to the (empty) section list.
In particular `chunk_text` terminates on every input. -/
theorem chunkCore_eq (t : List Char) (cs ov : Nat) :
    chunkCore t cs ov = some (sectionsOf (pySplitlines t)) := by
  unfold chunkCore
  by_cases hs : sectionsOf (pySplitlines t) = []
  · rw [if_pos (by simpa [List.isEmpty_iff] using hs)]
    have hw : pyWords t = [] := words_nil_of_sectionsOf_nil hs
    rw [hw, hs]
    rfl
  · rw [if_neg (by simpa [List.isEmpty_iff] using hs)]

theorem chunkText_eq (text : String) (cs ov : Nat) :
    chunkText text cs ov =
      some (List.map String.mk (sectionsOf (pySplitlines text.data))) := by
  unfold chunkText
  rw [chunkCore_eq]
  rfl

theorem string_mk_ne_empty {l : List Char} (h : l ≠ []) : String.mk l ≠ "" := by
  intro hc
  rw [show ("" : String) = String.mk [] from rfl] at hc
  exact h (by injection hc)

/-! ## Claim theorems: chunking (C1, C2, C3, C10) -/

/-- C10: `chunk_text` is a total, terminating function for every input
string and every choice of `chunk_size` and `overlap`, including
`overlap ≥ chunk_size`: it always returns normally (`some`); whitespace-only
input returns the empty list; any input with at least one non-blank
character returns a non-empty list of non-empty chunks via the
section-accumulation path; and whenever the section pass yields nothing the
fallback word list is empty, so the sliding-window loop never runs with a
non-empty word list. -/
theorem chunkText_total_c10 (text : String) (cs ov : Nat) :
    ∃ r, chunkText text cs ov = some r ∧
      ((∀ c ∈ text.data, isWS c) → r = []) ∧
      ((∃ c ∈ text.data, ¬ isWS c) → r ≠ [] ∧ ∀ s ∈ r, s ≠ "") ∧
      (sectionsOf (pySplitlines text.data) = [] → pyWords text.data = []) := by
  refine ⟨List.map String.mk (sectionsOf (pySplitlines text.data)),
    chunkText_eq text cs ov, ?_, ?_, fun h => words_nil_of_sectionsOf_nil h⟩
  · intro h
    rw [sectionsOf_nil_of_all_ws h]
    rfl
  · rintro ⟨c, hc, hw⟩
    constructor
    · intro hnil
      rw [List.map_eq_nil_iff] at hnil
      exact sectionsOf_ne_nil_of_nonblank hc hw hnil
    · intro s hs
      rw [List.mem_map] at hs
      rcases hs with ⟨l, hl, rfl⟩
      exact string_mk_ne_empty (sectionsOf_all_ne_nil _ l hl)

/-- C10 witness: instantiation at concrete inputs, one whitespace-only and
(via the `∃`-conclusion) overlap equal to chunk size. -/
theorem chunkText_total_c10_witness :
    ∃ r, chunkText " x\ny " 3 3 = some r ∧
      ((∀ c ∈ (" x\ny " : String).data, isWS c) → r = []) ∧
      ((∃ c ∈ (" x\ny " : String).data, ¬ isWS c) → r ≠ [] ∧ ∀ s ∈ r, s ≠ "") ∧
      (sectionsOf (pySplitlines (" x\ny " : String).data) = [] →
        pyWords (" x\ny " : String).data = []) :=
  chunkText_total_c10 " x\ny " 3 3

/-- C1 (code-bug evaluation): for heading-free text the source does NOT
fall back to the sliding window, contradicting its own docstring
("If no headings found, fall back to a simple sliding window"):
every non-blank line is accumulated by the section pass regardless of
headings, so `chunk_text("a b c", chunk_size=2, overlap=1)` returns the
single chunk `"a b c"` instead of the claimed windows
`["a b", "b c", "c"]`. -/
theorem chunkText_heading_free_c1_eval :
    chunkText "a b c" 2 1 = some ["a b c"] ∧
      some ["a b c"] ≠ some ["a b", "b c", "c"] := by
  constructor
  · decide
  · decide

/-- C2 counterexample: the claim "for every text and parameters with
`overlap ≥ chunk_size`, `chunk_text` fails with `ConfigurationError`" is
false: `chunk_text` contains no parameter validation and no raise at all;
at `text="a"`, `chunk_size=1`, `overlap=1` it returns the normal result
`["a"]`. -/
theorem chunkText_config_error_c2_counterexample :
    ¬ (∀ (text : String) (cs ov : Nat), cs ≤ ov →
        chunkTextOutcome text cs ov = ChunkOutcome.error "ConfigurationError") := by
  intro h
  exact absurd (h "a" 1 1 (le_refl 1)) (by decide)

/-- C2 (amended): `chunk_text` performs no validation of
`overlap`/`chunk_size` and never fails with `ConfigurationError`; even when
`overlap ≥ chunk_size` it returns normally on every text (the only path on
which the sliding-window loop could fail to terminate is never reached
with a non-empty word list). -/
theorem chunkText_no_config_error_c2 (text : String) (cs ov : Nat)
    (h : cs ≤ ov) :
    ∃ r, chunkTextOutcome text cs ov = ChunkOutcome.ok r := by
  refine ⟨List.map String.mk (sectionsOf (pySplitlines text.data)), ?_⟩
  unfold chunkTextOutcome
  rw [chunkText_eq]

/-- C2 witness: the amended theorem applied at `overlap = chunk_size = 1`. -/
theorem chunkText_no_config_error_c2_witness :
    1 ≤ 1 ∧ ∃ r, chunkTextOutcome "a b" 1 1 = ChunkOutcome.ok r :=
  ⟨le_refl 1, chunkText_no_config_error_c2 "a b" 1 1 (le_refl 1)⟩

/-- C3: for every text containing at least one heading line, `chunk_text`
returns one chunk per heading-delimited section: the chunk count is the
number of heading lines, plus one more section accumulated and flushed
from non-blank content preceding the first heading; no returned chunk is
the empty string. -/
theorem chunkText_heading_sections_c3 (text : String) (cs ov : Nat)
    (h : ∃ l ∈ pySplitlines text.data, isHeading l = true) :
    ∃ r, chunkText text cs ov = some r ∧
      r.length = countHeadings (pySplitlines text.data) +
        (if leadingNonBlank (pySplitlines text.data) then 1 else 0) ∧
      ∀ s ∈ r, s ≠ "" := by
  refine ⟨List.map String.mk (sectionsOf (pySplitlines text.data)),
    chunkText_eq text cs ov, ?_, ?_⟩
  · rw [List.length_map, sectionsOf_length,
      flushCount_of_hasHeading (pySplitlines text.data) h []]
    by_cases hl : leadingNonBlank (pySplitlines text.data)
    · rw [if_pos hl, if_neg (by simp [hl])]
    · rw [if_neg hl, if_pos (by simpa using hl)]
  · intro s hs
    rw [List.mem_map] at hs
    rcases hs with ⟨l, hl, rfl⟩
    exact string_mk_ne_empty (sectionsOf_all_ne_nil _ l hl)

/-- C3 witness: a text with leading content and two headings yields three
non-empty chunks. -/
theorem chunkText_heading_sections_c3_witness :
    (∃ l ∈ pySplitlines ("x\n# A\nfoo\n\n# B" : String).data,
        isHeading l = true) ∧
      ∃ r, chunkText "x\n# A\nfoo\n\n# B" 5 2 = some r ∧
        r.length = countHeadings (pySplitlines ("x\n# A\nfoo\n\n# B" : String).data) +
          (if leadingNonBlank (pySplitlines ("x\n# A\nfoo\n\n# B" : String).data)
            then 1 else 0) ∧
        ∀ s ∈ r, s ≠ "" :=
  ⟨by decide, chunkText_heading_sections_c3 "x\n# A\nfoo\n\n# B" 5 2 (by decide)⟩

/-! ## Corpus loader and indexer (rag_agent.py:60-68 and 161-191)

The filesystem is modelled as the list of entries that
`glob.glob(os.path.join(folder_path, "**/*"), recursive=True)` yields: a
missing docs directory yields no entries.  The external embedding service
is irrelevant to the verified properties (ids and counts), so index
entries carry `(id, chunk_text)` pairs. -/

/-- One filesystem entry seen by the recursive glob. -/
structure FsEntry where
  path : String
  isFile : Bool
  content : String

/-- Embeds `os.path.basename`: the part of the path after the last `/`. -/
def pyBasename (p : String) : String :=
  String.mk ((p.data.reverse.takeWhile (fun c => c != '/')).reverse)

/-- Python `s.endswith(x)`: the last `|x|` characters equal `x`. -/
def endsWithList (l s : List Char) : Bool :=
  decide (s.length ≤ l.length) && decide (l.drop (l.length - s.length) = s)

/-- Embeds `path.lower().endswith((".md", ".txt"))` (rag_agent.py:63). -/
def hasTextExt (p : String) : Bool :=
  let lower := p.data.map Char.toLower
  endsWithList lower ".md".data || endsWithList lower ".txt".data

/-- Embeds `load_docs_from_folder` (rag_agent.py:60-68): keep files with a
recognized text extension whose stripped content is non-empty, as
`(basename, stripped text)` pairs. -/
def loadDocsFromFolder (fs : List FsEntry) : List (String × String) :=
  fs.filterMap fun e =>
    if e.isFile && hasTextExt e.path then
      let text := pyStripS e.content
      if text = "" then none else some (pyBasename e.path, text)
    else none

/-- The chunks of one document as `build_index` computes them
(rag_agent.py:180): `chunk_text` with default arguments.  `chunk_text`
always returns (`chunkCore_eq`), so the `getD` default is never used. -/
def chunksOf (t : String) : List String := (chunkTextDefault t).getD []

/-- Python's decimal digit characters. -/
def digitChar : Nat → Char
  | 0 => '0' | 1 => '1' | 2 => '2' | 3 => '3' | 4 => '4'
  | 5 => '5' | 6 => '6' | 7 => '7' | 8 => '8' | 9 => '9'
  | _ => '*'

/-- Decimal rendering of a natural number (Python `str(int)`), via
`Nat.digits` so that correctness facts about digits are available. -/
def natChars (n : Nat) : List Char :=
  if n = 0 then ['0'] else ((Nat.digits 10 n).map digitChar).reverse

/-- Python `str(idx)`. -/
def natStr (n : Nat) : String := String.mk (natChars n)

/-- Embeds `f"{filename}-{idx}"` (rag_agent.py:181). -/
def mkChunkId (f : String) (idx : Nat) : String := f ++ "-" ++ natStr idx

/-- The inner `for chunk in chunk_text(text)` loop of `build_index`
(rag_agent.py:180-184): one `(id, chunk)` entry per chunk, with the
running index incremented per chunk. -/
def docEntries (f : String) : List String → Nat → List (String × String)
  | [], _ => []
  | c :: cs, idx => (mkChunkId f idx, c) :: docEntries f cs (idx + 1)

/-- The outer `for filename, text in _KB_DOCS_CACHE` loop of `build_index`
(rag_agent.py:179-184): the running index is global across documents. -/
def buildEntries : List (String × String) → Nat → List (String × String)
  | [], _ => []
  | (f, t) :: rest, idx =>
    let cs := chunksOf t
    docEntries f cs idx ++ buildEntries rest (idx + cs.length)

/-- Embeds `build_index` (rag_agent.py:161-191): reload the docs, fail hard when
none are usable (`raise RuntimeError(...)`, rag_agent.py:168 — the error
the spec's taxonomy labels `ConfigurationError`), otherwise produce the
index entries and return them with the chunk count `len(ids)`. -/
def buildIndexResult (fs : List FsEntry) :
    Except String (List (String × String) × Nat) :=
  let docs := loadDocsFromFolder fs
  if docs.isEmpty then
    .error "No documents found in ./docs. Add some .md or .txt files."
  else
    let entries := buildEntries docs 0
    .ok (entries, entries.length)

/-! ### Lemmas about the loader and the ids -/

theorem loadDocs_mem {fs : List FsEntry} {p : String × String}
    (hp : p ∈ loadDocsFromFolder fs) : ∃ c : String, p.2 = pyStripS c := by
  unfold loadDocsFromFolder at hp
  rw [List.mem_filterMap] at hp
  rcases hp with ⟨e, _, he⟩
  by_cases h1 : e.isFile && hasTextExt e.path
  · rw [if_pos h1] at he
    by_cases h2 : pyStripS e.content = ""
    · simp [h2] at he
    · simp only [if_neg h2] at he
      injection he with he2
      exact ⟨e.content, by rw [← he2]⟩
  · rw [if_neg h1] at he
    simp at he

theorem loadDocs_snd_ne_empty {fs : List FsEntry} {p : String × String}
    (hp : p ∈ loadDocsFromFolder fs) : p.2 ≠ "" := by
  unfold loadDocsFromFolder at hp
  rw [List.mem_filterMap] at hp
  rcases hp with ⟨e, _, he⟩
  by_cases h1 : e.isFile && hasTextExt e.path
  · rw [if_pos h1] at he
    by_cases h2 : pyStripS e.content = ""
    · simp [h2] at he
    · simp only [if_neg h2] at he
      injection he with he2
      intro hc
      rw [← he2] at hc
      exact h2 hc
  · rw [if_neg h1] at he
    simp at he

theorem chunksOf_ne_nil_of_stripped {c : String}
    (h : pyStripS c ≠ "") : chunksOf (pyStripS c) ≠ [] := by
  have hdata : pyStrip c.data ≠ [] := by
    intro hc
    exact h (by unfold pyStripS; rw [hc])
  rcases exists_not_ws_of_pyStrip_ne_nil hdata with ⟨ch, hch, hw⟩
  have hch2 : ch ∈ (pyStripS c).data := hch
  unfold chunksOf chunkTextDefault
  rw [chunkText_eq]
  simp only [Option.getD_some]
  intro hnil
  rw [List.map_eq_nil_iff] at hnil
  exact sectionsOf_ne_nil_of_nonblank hch2 hw hnil

/-- The suffix of an id after its last `-`. -/
def idSuffix (s : String) : List Char :=
  s.data.reverse.takeWhile (fun c => c != '-')

theorem digitChar_ne_dash {d : Nat} (hd : d < 10) : digitChar d ≠ '-' := by
  interval_cases d <;> decide

theorem digitChar_inj {d e : Nat} (hd : d < 10) (he : e < 10) :
    digitChar d = digitChar e → d = e := by
  interval_cases d <;> interval_cases e <;> decide

theorem natChars_ne_dash {n : Nat} : ∀ c ∈ natChars n, c ≠ '-' := by
  intro c hc
  unfold natChars at hc
  by_cases hn : n = 0
  · rw [if_pos hn] at hc
    rw [List.mem_singleton] at hc
    subst hc
    decide
  · rw [if_neg hn, List.mem_reverse, List.mem_map] at hc
    rcases hc with ⟨d, hd, rfl⟩
    exact digitChar_ne_dash (Nat.digits_lt_base (by norm_num) hd)

theorem map_digitChar_inj :
    ∀ {l1 l2 : List Nat}, (∀ x ∈ l1, x < 10) → (∀ x ∈ l2, x < 10) →
      l1.map digitChar = l2.map digitChar → l1 = l2
  | [], [], _, _, _ => rfl
  | [], _ :: _, _, _, h => by simp at h
  | _ :: _, [], _, _, h => by simp at h
  | a :: l1, b :: l2, h1, h2, h => by
    rw [List.map_cons, List.map_cons] at h
    injection h with hab hl
    rw [digitChar_inj (h1 a (List.mem_cons_self _ _))
      (h2 b (List.mem_cons_self _ _)) hab,
      map_digitChar_inj (fun x hx => h1 x (List.mem_cons_of_mem _ hx))
        (fun x hx => h2 x (List.mem_cons_of_mem _ hx)) hl]

theorem natChars_inj {m n : Nat} (h : natChars m = natChars n) : m = n := by
  unfold natChars at h
  by_cases hm : m = 0 <;> by_cases hn : n = 0
  · rw [hm, hn]
  · rw [if_pos hm, if_neg hn] at h
    exfalso
    have hmap : (Nat.digits 10 n).map digitChar = ['0'] := by
      have := congrArg List.reverse h
      simpa using this.symm
    have hd : Nat.digits 10 n = [0] := by
      cases hds : Nat.digits 10 n with
      | nil => rw [hds] at hmap; simp at hmap
      | cons d ds =>
        rw [hds, List.map_cons] at hmap
        injection hmap with h1 h2
        rw [List.map_eq_nil_iff] at h2
        subst h2
        have hd10 : d < 10 :=
          Nat.digits_lt_base (by norm_num) (hds ▸ List.mem_cons_self d [])
        have hd0 : d = 0 := @digitChar_inj d 0 hd10 (by norm_num) h1
        rw [hd0]
    have hlast := Nat.getLast_digit_ne_zero 10 hn
    rw [List.getLast_congr _ _ hd] at hlast
    · simp at hlast
    · simp
  · rw [if_neg hm, if_pos hn] at h
    exfalso
    have hmap : (Nat.digits 10 m).map digitChar = ['0'] := by
      have := congrArg List.reverse h
      simpa using this
    have hd : Nat.digits 10 m = [0] := by
      cases hds : Nat.digits 10 m with
      | nil => rw [hds] at hmap; simp at hmap
      | cons d ds =>
        rw [hds, List.map_cons] at hmap
        injection hmap with h1 h2
        rw [List.map_eq_nil_iff] at h2
        subst h2
        have hd10 : d < 10 :=
          Nat.digits_lt_base (by norm_num) (hds ▸ List.mem_cons_self d [])
        have hd0 : d = 0 := @digitChar_inj d 0 hd10 (by norm_num) h1
        rw [hd0]
    have hlast := Nat.getLast_digit_ne_zero 10 hm
    rw [List.getLast_congr _ _ hd] at hlast
    · simp at hlast
    · simp
  · rw [if_neg hm, if_neg hn] at h
    have hmap : (Nat.digits 10 m).map digitChar =
        (Nat.digits 10 n).map digitChar := by
      have := congrArg List.reverse h
      simpa using this
    have hdig := map_digitChar_inj
      (fun x hx => Nat.digits_lt_base (by norm_num) hx)
      (fun x hx => Nat.digits_lt_base (by norm_num) hx) hmap
    calc m = Nat.ofDigits 10 (Nat.digits 10 m) := (Nat.ofDigits_digits 10 m).symm
    _ = Nat.ofDigits 10 (Nat.digits 10 n) := by rw [hdig]
    _ = n := Nat.ofDigits_digits 10 n

theorem takeWhile_ne_dash_append :
    ∀ (l1 l2 : List Char), (∀ c ∈ l1, c ≠ '-') →
      List.takeWhile (fun c => c != '-') (l1 ++ '-' :: l2) = l1
  | [], l2, _ => by simp [List.takeWhile]
  | c :: l1, l2, h => by
    have hc : c ≠ '-' := h c (List.mem_cons_self _ _)
    simp only [List.cons_append, List.takeWhile_cons]
    rw [if_pos (by simpa using hc)]
    rw [takeWhile_ne_dash_append l1 l2 (fun x hx => h x (List.mem_cons_of_mem _ hx))]

theorem idSuffix_mkChunkId (f : String) (i : Nat) :
    idSuffix (mkChunkId f i) = (natChars i).reverse := by
  unfold idSuffix mkChunkId
  rw [String.data_append, String.data_append]
  have hdash : ("-" : String).data = ['-'] := rfl
  have hnat : (natStr i).data = natChars i := rfl
  rw [hdash, hnat]
  rw [show f.data ++ ['-'] ++ natChars i = f.data ++ ('-' :: natChars i) by simp]
  rw [List.reverse_append]
  rw [show ('-' :: natChars i).reverse = (natChars i).reverse ++ ['-'] by simp]
  rw [List.append_assoc]
  rw [show (['-'] ++ f.data.reverse) = '-' :: f.data.reverse by simp]
  exact takeWhile_ne_dash_append _ _
    (fun c hc => natChars_ne_dash c (List.mem_reverse.mp hc))

theorem mkChunkId_idx_inj {f1 f2 : String} {j1 j2 : Nat}
    (h : mkChunkId f1 j1 = mkChunkId f2 j2) : j1 = j2 := by
  have hs := congrArg idSuffix h
  rw [idSuffix_mkChunkId, idSuffix_mkChunkId] at hs
  exact natChars_inj (List.reverse_injective hs)

theorem docEntries_fst_mem {f : String} :
    ∀ {cs : List String} {idx : Nat} {s : String},
      s ∈ (docEntries f cs idx).map Prod.fst →
      ∃ j, idx ≤ j ∧ j < idx + cs.length ∧ s = mkChunkId f j := by
  intro cs
  induction cs with
  | nil => intro idx s hs; simp [docEntries] at hs
  | cons c cs ih =>
    intro idx s hs
    rw [docEntries, List.map_cons, List.mem_cons] at hs
    rcases hs with rfl | hs
    · exact ⟨idx, le_refl _, by simp, rfl⟩
    · rcases ih hs with ⟨j, hj1, hj2, hj3⟩
      exact ⟨j, by omega, by simp; omega, hj3⟩

theorem buildEntries_fst_mem :
    ∀ (docs : List (String × String)) {idx : Nat} {s : String},
      s ∈ (buildEntries docs idx).map Prod.fst →
      ∃ g j, idx ≤ j ∧ s = mkChunkId g j
  | [], _, _, hs => by simp [buildEntries] at hs
  | (f, t) :: rest, idx, s, hs => by
    rw [buildEntries, List.map_append, List.mem_append] at hs
    rcases hs with hs | hs
    · rcases docEntries_fst_mem hs with ⟨j, hj1, _, hj3⟩
      exact ⟨f, j, hj1, hj3⟩
    · rcases buildEntries_fst_mem rest hs with ⟨g, j, hj1, hj2⟩
      exact ⟨g, j, by omega, hj2⟩

theorem docEntries_nodup (f : String) :
    ∀ (cs : List String) (idx : Nat),
      ((docEntries f cs idx).map Prod.fst).Nodup
  | [], _ => by simp [docEntries]
  | c :: cs, idx => by
    rw [docEntries, List.map_cons, List.nodup_cons]
    refine ⟨?_, docEntries_nodup f cs (idx + 1)⟩
    intro hmem
    rcases docEntries_fst_mem hmem with ⟨j, hj1, _, hj3⟩
    have := mkChunkId_idx_inj hj3
    omega

theorem buildEntries_nodup :
    ∀ (docs : List (String × String)) (idx : Nat),
      ((buildEntries docs idx).map Prod.fst).Nodup
  | [], _ => by simp [buildEntries]
  | (f, t) :: rest, idx => by
    rw [buildEntries, List.map_append]
    refine List.Nodup.append (docEntries_nodup f _ idx)
      (buildEntries_nodup rest _) ?_
    intro s hs1 hs2
    rcases docEntries_fst_mem hs1 with ⟨j1, _, hj1u, hj1e⟩
    rcases buildEntries_fst_mem rest hs2 with ⟨g, j2, hj2l, hj2e⟩
    have heq : mkChunkId f j1 = mkChunkId g j2 := by rw [← hj1e, ← hj2e]
    have : j1 = j2 := mkChunkId_idx_inj heq
    omega

theorem docEntries_length {f : String} :
    ∀ (cs : List String) (idx : Nat), (docEntries f cs idx).length = cs.length
  | [], _ => rfl
  | c :: cs, idx => by
    rw [docEntries, List.length_cons, docEntries_length cs (idx + 1),
      List.length_cons]

/-! ## Claim theorems: build_index (C5, C9) -/

/-- C5: `build_index` fails hard — with the `raise` at rag_agent.py:168,
the error the spec's taxonomy calls `ConfigurationError` — exactly when
the docs directory yields zero usable documents (a missing directory
yields no glob entries, hence zero documents); when it succeeds, the
reported chunk count is positive, so it never silently builds an empty
index. -/
theorem buildIndex_guard_c5 (fs : List FsEntry) :
    (buildIndexResult fs =
        Except.error "No documents found in ./docs. Add some .md or .txt files." ↔
      loadDocsFromFolder fs = []) ∧
    (∀ entries n, buildIndexResult fs = Except.ok (entries, n) → 0 < n) := by
  constructor
  · constructor
    · intro h
      by_contra hne
      unfold buildIndexResult at h
      rw [if_neg (by simpa [List.isEmpty_iff] using hne)] at h
      exact Except.noConfusion h
    · intro h
      unfold buildIndexResult
      rw [if_pos (by simpa [List.isEmpty_iff] using h)]
  · intro entries n h
    unfold buildIndexResult at h
    by_cases hd : loadDocsFromFolder fs = []
    · rw [if_pos (by simpa [List.isEmpty_iff] using hd)] at h
      exact Except.noConfusion h
    · rw [if_neg (by simpa [List.isEmpty_iff] using hd)] at h
      injection h with h2
      have hn : n = (buildEntries (loadDocsFromFolder fs) 0).length := by
        have := congrArg Prod.snd h2
        simpa using this.symm
      cases hdocs : loadDocsFromFolder fs with
      | nil => exact absurd hdocs hd
      | cons p rest =>
        rcases loadDocs_mem (hdocs ▸ List.mem_cons_self p rest) with ⟨c, hc⟩
        have hne : p.2 ≠ "" := loadDocs_snd_ne_empty (hdocs ▸ List.mem_cons_self p rest)
        have hchunks : chunksOf p.2 ≠ [] := by
          rw [hc]
          exact chunksOf_ne_nil_of_stripped (hc ▸ hne)
        rw [hn, hdocs]
        cases p with
        | mk f t =>
          rw [buildEntries]
          rw [List.length_append]
          rw [docEntries_length]
          have : chunksOf t ≠ [] := hchunks
          cases hcs : chunksOf t with
          | nil => exact absurd hcs this
          | cons a as => simp

/-- C5 witness: an empty filesystem fails with the configuration error,
and a one-document corpus yields a positive chunk count. -/
theorem buildIndex_guard_c5_witness :
    buildIndexResult [] =
      Except.error "No documents found in ./docs. Add some .md or .txt files." ∧
    0 < 1 :=
  ⟨(buildIndex_guard_c5 []).1.mpr rfl,
    (buildIndex_guard_c5 [⟨"docs/a.md", true, "hello"⟩]).2
      [("a.md-0", "hello")] 1 (by rfl)⟩

/-- C9: the chunk ids `f"{filename}-{idx}"` produced by `build_index` are
pairwise distinct across all chunks of all documents, for every corpus:
the running index is global and strictly increasing, and the decimal
suffix after the last `-` of an id recovers it. -/
theorem buildIndex_ids_nodup_c9 (docs : List (String × String)) :
    ((buildEntries docs 0).map Prod.fst).Nodup :=
  buildEntries_nodup docs 0

/-! ## Index rebuild as a step sequence (C4)

`build_index` mutates two pieces of shared state: the chroma client's
collection store (delete/create/add, rag_agent.py:171-186) and the
module-level `collection` handle (rag_agent.py:188-189).  Collections are
identified by an allocation handle (the Python object identity); deleting
a collection removes it from the store while existing handles to it
dangle.  A reader (`retrieve_top_chunks`, rag_agent.py:203) queries
through the module-level handle: `readActive` is `none` when that handle
no longer resolves. -/

/-- One collection in the chroma client: allocation handle, name, and its
`(id, chunk)` contents. -/
structure KBCollection where
  handle : Nat
  name : String
  contents : List (String × String)
deriving DecidableEq, Repr

/-- Shared state: the client's collection store, the next allocation
handle, and the handle held by the module-level `collection` global. -/
structure KBState where
  store : List KBCollection
  next : Nat
  active : Nat
deriving DecidableEq, Repr

/-- What a reader querying through the module-level handle observes:
`none` when the handle no longer resolves to a stored collection. -/
def readActive (s : KBState) : Option (List (String × String)) :=
  (s.store.find? (fun c => c.handle == s.active)).map KBCollection.contents

/-- Embeds `chroma_client.delete_collection(name=...)` (rag_agent.py:173). -/
def deleteCollection (s : KBState) (nm : String) : KBState :=
  { s with store := s.store.filter (fun c => !(c.name == nm)) }

/-- Embeds `chroma_client.create_collection(name=...)` (rag_agent.py:175):
returns the new state and the handle of the fresh empty collection. -/
def createCollection (s : KBState) (nm : String) : KBState × Nat :=
  ({ store := s.store ++ [⟨s.next, nm, []⟩], next := s.next + 1,
     active := s.active }, s.next)

/-- Embeds `col.add(ids=..., documents=..., embeddings=...)` (rag_agent.py:186). -/
def addToCollection (s : KBState) (h : Nat) (entries : List (String × String)) :
    KBState :=
  { s with store := s.store.map fun c =>
      if c.handle == h then { c with contents := entries } else c }

/-- Embeds `global collection; collection = col` (rag_agent.py:188-189). -/
def setActive (s : KBState) (h : Nat) : KBState := { s with active := h }

/-- The successive states `build_index` moves the shared state through
(after the docs reload): delete the old collection, create a fresh empty
one, fill it, and only then swap the module-level handle. -/
def buildIndexStates (docs : List (String × String)) (s0 : KBState) :
    List KBState :=
  let s1 := deleteCollection s0 "support_kb"
  let p := createCollection s1 "support_kb"
  let s3 := addToCollection p.1 p.2 (buildEntries docs 0)
  let s4 := setActive s3 p.2
  [s1, p.1, s3, s4]

/-- Initial state for the C4 evaluation: one populated `support_kb`
collection, with the module-level handle pointing at it. -/
def c4InitState : KBState :=
  ⟨[⟨0, "support_kb", [("a.md-0", "old docs")]⟩], 1, 0⟩

/-- The new corpus for the C4 evaluation. -/
def c4Docs : List (String × String) := [("a.md", "new docs")]

/-! ## Claim theorem: rebuild atomicity (C4) -/

/-- C4 (code-bug evaluation): rebuilding is NOT atomic for readers.
Starting from a populated index (reader observes the old contents), the
three intermediate states of `build_index` — after `delete_collection`,
after `create_collection`, and after `col.add` — all leave the
module-level handle dangling, so a reader observes `none` (a failed
lookup), which is neither the fully-old nor the fully-new observation;
only the final handle swap restores an observation (the new index). -/
theorem buildIndex_not_atomic_c4_eval :
    readActive c4InitState = some [("a.md-0", "old docs")] ∧
    (buildIndexStates c4Docs c4InitState).map readActive =
      [none, none, none, some [("a.md-0", "new docs")]] := by
  constructor
  · rfl
  · rfl

/-! ## Retrieval modes (C6)

`retrieve_top_chunks` (rag_agent.py:197-209) is the unfiltered mode: it
returns the documents list of the nearest-neighbour query unchanged
(guarding only against a missing/`None` list).  The threshold-filtered
mode exists in the repository's UI variant pages, which are not part of
`src/`; it is modelled from the spec here. -/

/-- One nearest-neighbour query result: chunk text plus its cosine
distance when the backing metric returned one.  Modelled from the spec:
"a best-effort distance availability (defensive `None`)" — absence is a
distinguishable state. -/
structure RetrievalResult where
  text : String
  distance : Option ℚ
deriving DecidableEq, Repr

/-- Modelled from the spec: the default similarity threshold 0.7. -/
def defaultSimilarityThreshold : ℚ := 7/10

/-- Modelled from the spec: "Threshold-filtered: retain only chunks with
`similarity ≥ threshold` (default 0.7); if the backing distance metric is
unavailable for a given result, the result is conservatively retained
rather than dropped", where similarity is `1 − cosine_distance`.  This
mode lives in repository UI variants outside `src/`. -/
def filterByThreshold (results : List RetrievalResult) (threshold : ℚ) :
    List String :=
  (results.filter fun r =>
    match r.distance with
    | none => true
    | some d => decide (threshold ≤ 1 - d)).map RetrievalResult.text

/-- Embeds `retrieve_top_chunks` (rag_agent.py:197-209) after the embedding and
nearest-neighbour query (external collaborators): the documents list is
returned unchanged; `result.get("documents", [[]])[0] or []` yields `[]`
when the backend returned nothing. -/
def retrieveTopChunks (queryDocuments : Option (List String)) : List String :=
  match queryDocuments with
  | none => []
  | some docs => docs

/-! ## Claim theorem: retrieval modes (C6) -/

/-- C6: both retrieval modes are exposed: the unfiltered mode returns the
backend's document list unchanged (empty when the backend yields
nothing), and the threshold-filtered mode retains exactly the retrieved
chunks whose similarity `1 − distance` is at least the threshold,
conservatively retaining every result whose distance is unavailable; the
default threshold is 0.7. -/
theorem retrieval_modes_c6 (results : List RetrievalResult) (t : ℚ) :
    (∀ doc, doc ∈ filterByThreshold results t ↔
      ∃ r ∈ results, r.text = doc ∧
        (r.distance = none ∨ ∃ d, r.distance = some d ∧ t ≤ 1 - d)) ∧
    (∀ queryDocuments, retrieveTopChunks queryDocuments =
      queryDocuments.getD []) ∧
    defaultSimilarityThreshold = 7 / 10 := by
  refine ⟨?_, ?_, rfl⟩
  · intro doc
    unfold filterByThreshold
    rw [List.mem_map]
    constructor
    · rintro ⟨r, hr, rfl⟩
      rw [List.mem_filter] at hr
      refine ⟨r, hr.1, rfl, ?_⟩
      rcases hd : r.distance with _ | d
      · exact Or.inl rfl
      · refine Or.inr ⟨d, rfl, ?_⟩
        have := hr.2
        rw [hd] at this
        simpa using this
    · rintro ⟨r, hr, rfl, hcond⟩
      refine ⟨r, ?_, rfl⟩
      rw [List.mem_filter]
      refine ⟨hr, ?_⟩
      rcases hcond with hd | ⟨d, hd, hsim⟩
      · rw [hd]
      · rw [hd]
        simpa using hsim
  · intro q
    cases q <;> rfl

/-! ## Context assembly and the escalation path of `answer_question`
(C7, C8)

The two reasoning-model calls and the embedding call are external
collaborators; `answer_question` is embedded as a function of the
retrieved chunks, the first response (text content and/or tool calls,
with arguments already JSON-decoded by `json.loads`), the second
response's text, and the uuid string drawn for the ticket
(`str(uuid.uuid4())` — always 36 characters, hence non-empty). -/

/-- Embeds `"\n\n".join(chunks)` (rag_agent.py:258). -/
def joinContext (chunks : List String) : String :=
  String.mk (List.intercalate ['\n', '\n'] (chunks.map String.data))

/-- The sentinel substituted for empty retrieved context
(rag_agent.py:269). -/
def noDocsSentinel : String := "[NO MATCHING DOCUMENTATION FOUND]"

/-- Embeds `context if context.strip() else "[NO MATCHING DOCUMENTATION FOUND]"`
(rag_agent.py:268-270). -/
def contextForPrompt (chunks : List String) : String :=
  let context := joinContext chunks
  if pyStripS context = "" then noDocsSentinel else context

/-- One entry of `msg.tool_calls`, with its function arguments already
decoded (rag_agent.py:302). -/
structure ToolCall where
  id : String
  name : String
  userQuestion : String
  retrievedContext : String
deriving DecidableEq, Repr

/-- The escalation payload (rag_agent.py:215-223). -/
structure Ticket where
  ticketId : String
  status : String
  assignedTeam : String
  note : String
deriving DecidableEq, Repr

/-- The first reasoning response: optional text content and the list of
tool calls (empty when the model answered directly). -/
structure FirstMessage where
  content : Option String
  toolCalls : List ToolCall
deriving DecidableEq, Repr

/-- The `meta` dictionary returned by `answer_question`
(rag_agent.py:277-282, mutated at 308-310). -/
structure AgentMeta where
  mode : String
  toolCalled : Option String
  ticket : Option Ticket
  retrievedChunks : List String
deriving DecidableEq, Repr

/-- Embeds `escalate_ticket` (rag_agent.py:215-223): `str(uuid.uuid4())[:8]` as
ticket id, fixed status, team and note.  The uuid string is a parameter
(external randomness). -/
def escalateTicket (uuidStr : String) (userQuestion retrievedContext : String) :
    Ticket :=
  { ticketId := String.mk (uuidStr.data.take 8)
    status := "created"
    assignedTeam := "Tier-2 Support"
    note := "Escalated because documentation was insufficient or ambiguous." }

/-- Embeds `answer_question` (rag_agent.py:251-333) downstream of retrieval and
the first reasoning call: if some tool call named `escalate_ticket` is
present, the first such call is executed and the (stripped) second
response is returned with escalation metadata; otherwise the first
response's text is the answer.  Returns `(final_answer, context, meta)`. -/
def answerQuestion (question : String) (chunks : List String)
    (first : FirstMessage) (secondContent : String) (uuidStr : String) :
    String × String × AgentMeta :=
  let context := joinContext chunks
  match first.toolCalls.find? (fun tc => tc.name == "escalate_ticket") with
  | some tc =>
    let ticket := escalateTicket uuidStr tc.userQuestion tc.retrievedContext
    (pyStripS secondContent, context,
      { mode := "escalated", toolCalled := some "escalate_ticket",
        ticket := some ticket, retrievedChunks := chunks })
  | none =>
    (pyStripS (first.content.getD ""), context,
      { mode := "answer_from_docs", toolCalled := none, ticket := none,
        retrievedChunks := chunks })

/-! ### Lemmas for C7 -/

theorem mem_intersperse {sep : List Char} :
    ∀ {ls : List (List Char)} {x}, x ∈ List.intersperse sep ls →
      x = sep ∨ x ∈ ls
  | [], x, h => by simp [List.intersperse] at h
  | [a], x, h => by
    simp only [List.intersperse] at h
    rw [List.mem_singleton] at h
    exact Or.inr (by simp [h])
  | a :: b :: t, x, h => by
    rw [show List.intersperse sep (a :: b :: t) =
        a :: sep :: List.intersperse sep (b :: t) from rfl,
      List.mem_cons, List.mem_cons] at h
    rcases h with rfl | rfl | h
    · exact Or.inr (List.mem_cons_self _ _)
    · exact Or.inl rfl
    · rcases mem_intersperse h with h | h
      · exact Or.inl h
      · exact Or.inr (List.mem_cons_of_mem _ h)

theorem mem_intercalate {sep : List Char} {ls : List (List Char)} {c : Char}
    (h : c ∈ List.intercalate sep ls) : c ∈ sep ∨ ∃ l ∈ ls, c ∈ l := by
  unfold List.intercalate at h
  rw [List.mem_flatten] at h
  rcases h with ⟨piece, hp, hc⟩
  rcases mem_intersperse hp with rfl | hp2
  · exact Or.inl hc
  · exact Or.inr ⟨piece, hp2, hc⟩

/-! ## Claim theorem: empty-context sentinel (C7) -/

/-- C7: when retrieval yields no chunks or only whitespace-only text, the
documentation context passed to the reasoning model is the fixed
non-empty sentinel, never the empty string. -/
theorem context_sentinel_c7 (chunks : List String)
    (h : ∀ s ∈ chunks, ∀ c ∈ s.data, isWS c) :
    contextForPrompt chunks = noDocsSentinel ∧
    contextForPrompt chunks ≠ "" ∧ noDocsSentinel ≠ "" := by
  have hws : ∀ c ∈ (joinContext chunks).data, isWS c := by
    intro c hc
    have hc2 : c ∈ List.intercalate ['\n', '\n'] (chunks.map String.data) := hc
    rcases mem_intercalate hc2 with hcs | ⟨l, hl, hcl⟩
    · have hcn : c = '\n' := by simpa using hcs
      subst hcn
      decide
    · rw [List.mem_map] at hl
      rcases hl with ⟨s, hs, rfl⟩
      exact h s hs c hcl
  have hstrip : pyStripS (joinContext chunks) = "" := by
    unfold pyStripS
    rw [pyStrip_eq_nil_iff.mpr hws]
  refine ⟨?_, ?_, by decide⟩
  · unfold contextForPrompt
    rw [if_pos hstrip]
  · unfold contextForPrompt
    rw [if_pos hstrip]
    decide

/-- C7 witness: whitespace-only retrieved chunks produce the sentinel. -/
theorem context_sentinel_c7_witness :
    (∀ s ∈ ([" ", "\n\t"] : List String), ∀ c ∈ s.data, isWS c) ∧
    contextForPrompt [" ", "\n\t"] = noDocsSentinel ∧
    contextForPrompt [" ", "\n\t"] ≠ "" ∧ noDocsSentinel ≠ "" :=
  ⟨by decide, context_sentinel_c7 [" ", "\n\t"] (by decide)⟩

/-! ## Claim theorem: escalation path (C8) -/

/-- C8: whenever the first reasoning response invokes the
`escalate_ticket` capability, `answer_question` executes the escalation
and returns escalated metadata carrying a ticket whose id (the first
eight characters of a fresh uuid string, which is never empty) is
non-empty, whose status is `"created"` and whose team is
`"Tier-2 Support"`; the returned final answer is the (stripped) second
reasoning response. -/
theorem escalation_c8 (question : String) (chunks : List String)
    (first : FirstMessage) (secondContent uuidStr : String) (tc : ToolCall)
    (hfind : first.toolCalls.find? (fun tc => tc.name == "escalate_ticket") =
      some tc)
    (huuid : uuidStr ≠ "") :
    (answerQuestion question chunks first secondContent uuidStr).2.2.mode =
      "escalated" ∧
    (∃ t : Ticket,
      (answerQuestion question chunks first secondContent uuidStr).2.2.ticket =
        some t ∧
      t.ticketId ≠ "" ∧ t.status = "created" ∧
      t.assignedTeam = "Tier-2 Support") ∧
    (answerQuestion question chunks first secondContent uuidStr).1 =
      pyStripS secondContent := by
  have hdata : uuidStr.data ≠ [] := by
    intro hd
    apply huuid
    cases uuidStr with
    | mk d => simp at hd; rw [hd]
  unfold answerQuestion
  rw [hfind]
  refine ⟨rfl, ⟨escalateTicket uuidStr tc.userQuestion tc.retrievedContext,
    rfl, ?_, rfl, rfl⟩, rfl⟩
  unfold escalateTicket
  cases hds : uuidStr.data with
  | nil => exact absurd hds hdata
  | cons c cs =>
    simp only [hds]
    exact string_mk_ne_empty (by simp [List.take_cons])

/-- C8 witness: a concrete first response containing an
`escalate_ticket` call, with a 36-character uuid string. -/
theorem escalation_c8_witness :
    ((FirstMessage.mk none [⟨"call_1", "escalate_ticket", "q?", "ctx"⟩]).toolCalls.find?
        (fun tc => tc.name == "escalate_ticket") =
      some ⟨"call_1", "escalate_ticket", "q?", "ctx"⟩) ∧
    ("123e4567-e89b-12d3-a456-426614174000" : String) ≠ "" ∧
    ((answerQuestion "q?" [] ⟨none, [⟨"call_1", "escalate_ticket", "q?", "ctx"⟩]⟩
        "Done." "123e4567-e89b-12d3-a456-426614174000").2.2.mode = "escalated" ∧
      (∃ t : Ticket,
        (answerQuestion "q?" [] ⟨none, [⟨"call_1", "escalate_ticket", "q?", "ctx"⟩]⟩
            "Done." "123e4567-e89b-12d3-a456-426614174000").2.2.ticket = some t ∧
        t.ticketId ≠ "" ∧ t.status = "created" ∧
        t.assignedTeam = "Tier-2 Support") ∧
      (answerQuestion "q?" [] ⟨none, [⟨"call_1", "escalate_ticket", "q?", "ctx"⟩]⟩
          "Done." "123e4567-e89b-12d3-a456-426614174000").1 = pyStripS "Done.") :=
  ⟨by decide, by decide,
    escalation_c8 "q?" [] ⟨none, [⟨"call_1", "escalate_ticket", "q?", "ctx"⟩]⟩
      "Done." "123e4567-e89b-12d3-a456-426614174000"
      ⟨"call_1", "escalate_ticket", "q?", "ctx"⟩ (by decide) (by decide)⟩

end RagAgent

-- sanity examples (kept: they double as executable checks of the embedding)
example : RagAgent.chunkText "a b c" 2 1 = some ["a b c"] := by decide
example : RagAgent.chunkText "# A\nfoo\n\n# B\nbar" 800 150 =
    some ["# A foo", "# B bar"] := by decide
example : RagAgent.chunkText "   \n \n" 800 150 = some [] := by decide
example : RagAgent.chunkText "x\n# A\n# B" 5 2 =
    some ["x", "# A", "# B"] := by decide
